import Mathlib

/-!
Verification of the PDF extraction service (`src/main.py`, `src/utils/pdf_utils.py`)
against its natural-language specification.

The Python code is shallowly embedded:
* raw PDF bytes are `List Nat`;
* the diskcache `Cache` is an association list from hex-digest keys to texts;
* the external libraries `fitz` (PDF parsing), `pdf2image` (rasterization) and
  `pytesseract` (OCR) are abstracted into an `Engine` record of fallible
  functions, so that one theorem can quantify over all behaviours of the
  collaborators, including the exceptional ones;
* the knowledge base (`knowledge_base.json`) is an association list from labels
  to lists of field mappings, mirroring a JSON object in insertion order;
* Python dicts carrying extracted fields are association lists
  `List (String × Option String)` (`none` is Python `None`), in insertion order;
* the regular expressions of `extract_fields_from_text_generic` are embedded as
  explicit leftmost-match scanners with the same greedy/backtracking behaviour.
-/

/-- Raw PDF document bytes (`pdf_bytes: bytes` in the Python source). -/
abbrev Bytes := List Nat

/-- The on-disk `diskcache.Cache`, modelled as an association list from digest
keys to extracted texts, in insertion order. -/
abbrev CacheT := List (String × String)

/-- `key in self.cache` / `self.cache[key]`: first-match lookup. -/
def cacheLookup : CacheT → String → Option String
  | [], _ => none
  | (k, v) :: rest, key => if k = key then some v else cacheLookup rest key

/-- `self.cache[key] = text`: overwrite the entry if the key is present,
otherwise add a new entry. -/
def cacheStore : CacheT → String → String → CacheT
  | [], key, text => [(key, text)]
  | (k, v) :: rest, key, text =>
      if k = key then (k, text) :: rest else (k, v) :: cacheStore rest key text

/-- An opaque rasterized page image (a `PIL.Image` in the source). -/
structure PageImage where
  id : Nat
deriving DecidableEq

/-- The external collaborators used by `extract_text_from_pdf_bytes`, abstracted
as fallible functions so that theorems quantify over every behaviour:
* `parsePages b` models `fitz.open(stream=b, filetype="pdf")` followed by the
  per-page `page.get_text("text")` loop: on success the list of page texts in
  page order, on failure the exception message;
* `rasterize b dpi` models `convert_from_bytes(b, dpi=dpi)`;
* `ocrImage img lang` models `pytesseract.image_to_string(img, lang=lang)`. -/
structure Engine where
  parsePages : Bytes → Except String (List String)
  rasterize : Bytes → Nat → Except String (List PageImage)
  ocrImage : PageImage → String → Except String String

/-- The `text += ...` accumulation loop of the Python source: append each
string of `l` to the accumulator in order. -/
def concatAll : List String → String → String
  | [], acc => acc
  | s :: rest, acc => concatAll rest (acc ++ s)

/-- Characters stripped by Python `str.strip()` on ASCII text. -/
def pySpace (c : Char) : Bool :=
  c = ' ' || c = '\t' || c = '\n' || c = '\x0d' || c = '\x0b' || c = '\x0c'

/-- `not text.strip()`: the text is empty or whitespace-only. -/
def strippedEmpty (s : String) : Bool :=
  s.toList.all pySpace

/-- The OCR loop `for img in images: text += pytesseract.image_to_string(img,
lang="por+eng")`, aborting at the first raised exception (whose message is
returned as the error). -/
def ocrPages (e : Engine) : List PageImage → String → Except String String
  | [], acc => .ok acc
  | img :: rest, acc =>
      match e.ocrImage img "por+eng" with
      | .error msg => .error msg
      | .ok s => ocrPages e rest (acc ++ s)

/-- The body of the `try` block of `extract_text_from_pdf_bytes`, together with
the `except` clause: concatenate embedded page text; if the result strips to
empty, rasterize every page at 200 DPI and OCR each page image with languages
"por+eng", appending in page order; any exception replaces the whole
accumulated text by `"__ERROR__ " ++ message`. -/
def extract_text_core (e : Engine) (pdf_bytes : Bytes) : String :=
  match e.parsePages pdf_bytes with
  | .error msg => "__ERROR__ " ++ msg
  | .ok pages =>
      let text := concatAll pages ""
      if strippedEmpty text then
        match e.rasterize pdf_bytes 200 with
        | .error msg => "__ERROR__ " ++ msg
        | .ok images =>
            match ocrPages e images text with
            | .error msg => "__ERROR__ " ++ msg
            | .ok t => t
      else text

/-- `PDFExtractor.extract_text_from_pdf_bytes`, including the content cache.
`fp` abstracts `hashlib.md5(pdf_bytes).hexdigest()`: a fixed deterministic
digest function from bytes to keys (its definition is irrelevant to the claims,
which only use that identical bytes yield identical keys). Returns the
extracted text together with the cache after the call. -/
def extract_text_from_pdf_bytes (e : Engine) (fp : Bytes → String)
    (cache : CacheT) (pdf_bytes : Bytes) : String × CacheT :=
  let key := fp pdf_bytes
  match cacheLookup cache key with
  | some t => (t, cache)
  | none =>
      let text := extract_text_core e pdf_bytes
      (text, cacheStore cache key text)

/-- `PDFExtractor.normalize_text`: NFKD-decompose, encode to ASCII dropping
what does not fit, and upper-case. NFKD is the identity on the ASCII range, so
on ASCII input this is exactly `filter ASCII` then `upper`; non-ASCII
characters (whose NFKD decomposition table is not reproduced here) are dropped
by the ASCII encode step in this model. All inputs appearing in the claims are
ASCII, where the model agrees with the source exactly. -/
def normalize_text (s : String) : String :=
  String.mk (s.toList.filterMap fun c =>
    if c.toNat < 128 then some c.toUpper else none)

/-- Value of a list of decimal digit characters, most significant first. -/
def digitsToNat (l : List Char) : Nat :=
  l.foldl (fun n c => 10 * n + (c.toNat - 48)) 0

/-- Split a character list at its first `'.'`: the part before it, and
`some` the part after it (`none` when there is no dot). -/
def spanDot : List Char → List Char × Option (List Char)
  | [] => ([], none)
  | c :: rest =>
      if c = '.' then ([], some rest)
      else
        let p := spanDot rest
        (c :: p.1, p.2)

/-- Split a character list at its first `'e'` or `'E'`: the mantissa part and
`some` the exponent part (`none` when there is no exponent marker). -/
def spanExp : List Char → List Char × Option (List Char)
  | [] => ([], none)
  | c :: rest =>
      if c = 'e' || c = 'E' then ([], some rest)
      else
        let p := spanExp rest
        (c :: p.1, p.2)

/-- Strip one optional leading sign, returning whether it was `'-'`. -/
def spanSign : List Char → Bool × List Char
  | '-' :: rest => (true, rest)
  | '+' :: rest => (false, rest)
  | cs => (false, cs)

/-- An exact decimal value `num / 10 ^ exp`, the representation used for the
result of the modelled `float` conversion (kept exact instead of rounding to a
binary double; the two agree through 2-decimal formatting on all magnitudes
exercised by the claims). -/
structure PyDec where
  num : ℤ
  exp : ℕ
deriving DecidableEq

/-- `10 ^ n` over the integers. -/
def pow10 : Nat → ℤ
  | 0 => 1
  | n + 1 => 10 * pow10 n

/-- Parse the mantissa `digits [ "." digits ]` of a Python float literal: at
least one digit overall, each part made of digits only. Returns the exact
decimal value. -/
def pyMantissa (cs : List Char) : Option PyDec :=
  let p := spanDot cs
  let ip := p.1
  match p.2 with
  | none =>
      if ip ≠ [] && ip.all Char.isDigit then some ⟨(digitsToNat ip : ℤ), 0⟩
      else none
  | some fp =>
      if (ip ≠ [] || fp ≠ []) && ip.all Char.isDigit && fp.all Char.isDigit then
        some ⟨(digitsToNat (ip ++ fp) : ℤ), fp.length⟩
      else none

/-- Parse the exponent `[sign] digits` of a Python float literal. -/
def pyExponent (cs : List Char) : Option ℤ :=
  let sp := spanSign cs
  if sp.2 ≠ [] && sp.2.all Char.isDigit then
    some (if sp.1 then -(digitsToNat sp.2 : ℤ) else (digitsToNat sp.2 : ℤ))
  else none

/-- Model of Python `float(value)` on finite decimal literals
`[sign] digits [ "." digits ] [ (e|E) [sign] digits ]`, returning the exact
decimal value (`none` models a raised `ValueError`). Not modelled, being
unreachable from the money pipeline and unused by every claim: surrounding
whitespace, digit-group underscores, and the `inf`/`nan` spellings; the
rounding of the decimal literal to a binary double is not modelled either —
the exact value agrees with the double through 2-decimal formatting on all
magnitudes exercised here. -/
def pyFloat (s : String) : Option PyDec :=
  let sp := spanSign s.toList
  let me := spanExp sp.2
  match pyMantissa me.1 with
  | none => none
  | some m =>
      let num : ℤ := if sp.1 then -m.num else m.num
      match me.2 with
      | none => some ⟨num, m.exp⟩
      | some ecs =>
          match pyExponent ecs with
          | none => none
          | some e =>
              if 0 ≤ e then some ⟨num * pow10 e.toNat, m.exp⟩
              else some ⟨num, m.exp + (-e).toNat⟩

/-- Decimal digit characters of `n`, most significant first (fuel-driven). -/
def natDigitsAux : Nat → Nat → List Char
  | 0, _ => []
  | fuel + 1, n =>
      if n = 0 then []
      else natDigitsAux fuel (n / 10) ++ [Char.ofNat (48 + n % 10)]

/-- Decimal digit string of a natural number. -/
def natStr (n : Nat) : List Char :=
  if n = 0 then ['0'] else natDigitsAux (n + 1) n

/-- Model of the f-string `f"{x:.2f}"`: round `x` to 2 decimal places with
ties to even (the rounding used when formatting a double), then print with
exactly two digits after the point. The value `x * 100 = num * 100 / 10 ^ exp`
is rounded by comparing twice the floor remainder against the denominator. -/
def formatF2 (q : PyDec) : String :=
  let d : ℤ := pow10 q.exp
  let a : ℤ := q.num * 100
  let fl : ℤ := Int.fdiv a d
  let rem : ℤ := a - fl * d
  let n : ℤ :=
    if 2 * rem < d then fl
    else if d < 2 * rem then fl + 1
    else if fl % 2 = 0 then fl else fl + 1
  let ds := natStr n.natAbs
  let padded := if ds.length < 3 then List.replicate (3 - ds.length) '0' ++ ds else ds
  let intPart := padded.take (padded.length - 2)
  let fracPart := padded.drop (padded.length - 2)
  (if q.num < 0 then "-" else "") ++ String.mk intPart ++ "." ++ String.mk fracPart

/-- `value.replace(".", "")`: drop every dot (single-character pattern, so
plain character filtering). -/
def dropDots (s : String) : String :=
  String.mk (s.toList.filter fun c => c ≠ '.')

/-- `value.replace(",", ".")`: turn every comma into a dot (single-character
pattern and replacement, so plain character mapping). -/
def commaToDot (s : String) : String :=
  String.mk (s.toList.map fun c => if c = ',' then '.' else c)

/-- `PDFExtractor.normalize_money`: empty input maps to `None`; otherwise the
grouping dots are removed and the decimal comma becomes a dot, the result is
converted through `float` and formatted back with two decimals; when the
`float` conversion raises, the (already transformed) string is returned. -/
def normalize_money (value : String) : Option String :=
  if value = "" then none
  else
    let v := commaToDot (dropDots value)
    match pyFloat v with
    | some q => some (formatF2 q)
    | none => some v

/-- A regex word character (`\w` on the ASCII range — the normalized text is
ASCII-only): letter, digit or underscore. -/
def isWordChar (c : Char) : Bool :=
  c.isAlpha || c.isDigit || c = '_'

/-- An uppercase ASCII letter, the `[A-Z]` character class. -/
def isUpperAZ (c : Char) : Bool :=
  'A' ≤ c && c ≤ 'Z'

/-- A word boundary `\b` holds after the matched span: the remaining input is
empty or starts with a non-word character (the span always ends in a word
character for the patterns below). -/
def nonWordStart : List Char → Bool
  | [] => true
  | c :: _ => !isWordChar c

/-- Greedy consumption of up to `k` groups `" [A-Z]{2,}"` (the
`(?: [A-Z]{2,}){0,3}` part of the name pattern), returned as the list of
consumed groups, each a space followed by a maximal uppercase run. -/
def nameGroups : Nat → List Char → List (List Char)
  | 0, _ => []
  | k + 1, cs =>
      match cs with
      | ' ' :: rest =>
          let run := rest.takeWhile isUpperAZ
          if 2 ≤ run.length then
            (' ' :: run) :: nameGroups k (rest.drop run.length)
          else []
      | _ => []

/-- Attempt of the pattern `\b([A-Z]{3,}(?: [A-Z]{2,}){0,3})\b` at the head of
`cs` (the scanner has already checked the left boundary): a maximal uppercase
run of 3 or more letters, then up to three greedily taken groups; if the right
boundary fails after the greedy groups the last group is dropped (the engine
backtracks the `{0,3}` quantifier; after dropping a group the next character
is the space that began it, so the boundary holds), and with no group left the
attempt fails (a shorter uppercase run is still followed by a letter, a word
character, so no amount of backtracking inside `[A-Z]{3,}` helps). -/
def matchNameAt (cs : List Char) : Option (List Char) :=
  let lead := cs.takeWhile isUpperAZ
  if 3 ≤ lead.length then
    let gs := nameGroups 3 (cs.drop lead.length)
    let rest := cs.drop (lead.length + (gs.map List.length).sum)
    if nonWordStart rest then some (lead ++ gs.flatten)
    else if gs ≠ [] then some (lead ++ gs.dropLast.flatten)
    else none
  else none

/-- Attempt of `\d{4,6}\b` after the left boundary: try lengths from the
greedy maximum down to 4, requiring a word boundary after the digits. -/
def digitsTryLen : Nat → List Char → Option (List Char)
  | 0, _ => none
  | j + 1, cs =>
      if j + 1 < 4 then none
      else if nonWordStart (cs.drop (j + 1)) then some (cs.take (j + 1))
      else digitsTryLen j cs

/-- Attempt of the pattern `\b\d{4,6}\b` at the head of `cs` (left boundary
already checked by the scanner). -/
def matchOabAt (cs : List Char) : Option (List Char) :=
  let d := (cs.takeWhile Char.isDigit).length
  if 4 ≤ d then digitsTryLen (min d 6) cs else none

/-- Attempt of the pattern `\b\d{2}/\d{2}/\d{4}\b` at the head of `cs` (left
boundary already checked by the scanner). -/
def matchDateAt : List Char → Option (List Char)
  | a :: b :: '/' :: c :: d :: '/' :: e :: f :: g :: h :: rest =>
      if [a, b, c, d, e, f, g, h].all Char.isDigit && nonWordStart rest then
        some [a, b, '/', c, d, '/', e, f, g, h]
      else none
  | _ => none

/-- `re.search`: scan left to right, attempting the pattern at every position
whose left context is a word boundary (start of input or a preceding non-word
character — each pattern above begins with a word character), and return the
leftmost match. `prevNonWord` records whether the previous character was
absent or a non-word character. -/
def searchScan (att : List Char → Option (List Char)) :
    Bool → List Char → Option (List Char)
  | _, [] => none
  | prevNonWord, c :: cs =>
      match (if prevNonWord then att (c :: cs) else none) with
      | some m => some m
      | none => searchScan att (!isWordChar c) cs

/-- `re.search(r'\b([A-Z]{3,}(?: [A-Z]{2,}){0,3})\b', t)`, returning the
matched text of group 1 (which is the whole match). -/
def searchName (t : String) : Option String :=
  (searchScan matchNameAt true t.toList).map String.mk

/-- `re.search(r'\b\d{4,6}\b', t)`, returning the matched text. -/
def searchOab (t : String) : Option String :=
  (searchScan matchOabAt true t.toList).map String.mk

/-- `re.search(r'\b\d{2}/\d{2}/\d{4}\b', t)`, returning the matched text. -/
def searchDate (t : String) : Option String :=
  (searchScan matchDateAt true t.toList).map String.mk

/-- Greedy consumption of `(?:\.\d{3})*`: maximal repetition of a dot followed
by exactly three digits, returning the consumed characters and the rest.
(Backtracking this star never helps: with fewer repetitions the next required
character `','` would have to stand where a repetition began with `'.'`.) -/
def moneyGroups : List Char → List Char × List Char
  | '.' :: a :: b :: c :: rest =>
      if a.isDigit && b.isDigit && c.isDigit then
        let p := moneyGroups rest
        ('.' :: a :: b :: c :: p.1, p.2)
      else ([], '.' :: a :: b :: c :: rest)
  | cs => ([], cs)

/-- The tail `,\d{2}` of the money pattern. -/
def moneyTail : List Char → Option (List Char × List Char)
  | ',' :: a :: b :: rest =>
      if a.isDigit && b.isDigit then some ([',', a, b], rest) else none
  | _ => none

/-- One attempt of the money pattern with exactly `k` leading digits. -/
def moneyTryLead (k : Nat) (cs : List Char) : Option (List Char × List Char) :=
  let lead := cs.take k
  if lead.length = k && lead.all Char.isDigit then
    let p := moneyGroups (cs.drop k)
    match moneyTail p.2 with
    | some tp => some (lead ++ p.1 ++ tp.1, tp.2)
    | none => none
  else none

/-- Attempt of the pattern `\d{1,3}(?:\.\d{3})*,\d{2}` at the head of `cs`:
the greedy `\d{1,3}` tries 3, then 2, then 1 leading digits. Returns the match
and the remaining input. -/
def matchMoneyAt (cs : List Char) : Option (List Char × List Char) :=
  match moneyTryLead 3 cs with
  | some r => some r
  | none =>
      match moneyTryLead 2 cs with
      | some r => some r
      | none => moneyTryLead 1 cs

/-- `re.findall` scanning loop for the money pattern: leftmost matches, each
search resuming after the previous match (matches are at least four characters
long, so the fuel `length cs` never runs out before the input does). -/
def findAllMoneyAux : Nat → List Char → List String
  | 0, _ => []
  | _ + 1, [] => []
  | fuel + 1, c :: cs =>
      match matchMoneyAt (c :: cs) with
      | some p => String.mk p.1 :: findAllMoneyAux fuel p.2
      | none => findAllMoneyAux fuel cs

/-- `re.findall(r'\d{1,3}(?:\.\d{3})*,\d{2}', t)`. -/
def findAllMoney (t : String) : List String :=
  findAllMoneyAux t.toList.length t.toList

/-- An extraction schema: a JSON object from field name to human-readable
description, in insertion order (`extraction_schema: dict`). -/
abbrev Schema := List (String × String)

/-- An extracted field mapping: field name to extracted value or `None`, in
insertion order (`fields: dict`). -/
abbrev FieldMap := List (String × Option String)

/-- `key in dict` for an association list. -/
def hasKey (l : List (String × α)) (k : String) : Bool :=
  l.any fun p => p.1 = k

/-- First-match lookup in a field mapping (`dict` access). -/
def getVal : FieldMap → String → Option (Option String)
  | [], _ => none
  | (k, v) :: rest, key => if k = key then some v else getVal rest key

/-- `PDFExtractor.extract_fields_from_text_generic`: normalize the text, then
dispatch on schema keys — `"numero_oab"` present selects the identity-document
rules, otherwise `"data_referencia"` present selects the ledger rules,
otherwise the mapping is left empty. -/
def extract_fields_from_text_generic (text : String) (schema : Schema) : FieldMap :=
  let t := normalize_text text
  if hasKey schema "numero_oab" then
    [("nome", searchName t), ("numero_oab", searchOab t)]
  else if hasKey schema "data_referencia" then
    let valores := findAllMoney t
    [("data_referencia", searchDate t),
     ("saldo_vencido", (valores.get? 0).bind normalize_money),
     ("saldo_a_vencer", (valores.get? 1).bind normalize_money),
     ("total", valores.getLast?.bind normalize_money)]
  else []

/-- The key list of a dict (field mapping or schema), in insertion order. -/
def keysOf (l : List (String × α)) : List String :=
  l.map Prod.fst

/-- The loop `for field in extraction_schema.keys(): fields.setdefault(field,
None)` in `PDFExtractionService.process`: every schema key missing from the
mapping is added with value `None`, at the end, in schema order. -/
def applyDefaults : FieldMap → Schema → FieldMap
  | fields, [] => fields
  | fields, (k, _) :: rest =>
      applyDefaults (if hasKey fields k then fields else fields ++ [(k, none)]) rest

/-- The knowledge base document (`knowledge_base.json`): a JSON object from
label to the ordered sequence of field mappings recorded under it. -/
abbrev KB := List (String × List FieldMap)

/-- First-match lookup of a label's history. -/
def kbLookup : KB → String → Option (List FieldMap)
  | [], _ => none
  | (l, h) :: rest, label => if l = label then some h else kbLookup rest label

/-- `knowledge.setdefault(label, []).append(fields)`: append one mapping at the
end of the label's sequence, creating the entry (at the end of the object, as
dict insertion does) when the label is new. -/
def kbAppend : KB → String → FieldMap → KB
  | [], label, f => [(label, [f])]
  | (l, h) :: rest, label, f =>
      if l = label then (l, h ++ [f]) :: rest
      else (l, h) :: kbAppend rest label f

/-- The result dict returned by `PDFExtractionService.process`. -/
structure ProcResult where
  label : String
  extracted_text : String
  extracted_fields : FieldMap
deriving DecidableEq

/-- Whether `pat` occurs at the head of the second list. -/
def startsWith : List Char → List Char → Bool
  | [], _ => true
  | _ :: _, [] => false
  | p :: ps, c :: cs => p = c && startsWith ps cs

/-- Whether `pat` occurs contiguously anywhere in the second list. -/
def hasInfix (pat : List Char) : List Char → Bool
  | [] => startsWith pat []
  | c :: cs => startsWith pat (c :: cs) || hasInfix pat cs

/-- `"__ERROR__" in text`: substring containment of the error marker. -/
def containsMarker (text : String) : Bool :=
  hasInfix "__ERROR__".toList text.toList

/-- `PDFExtractionService.process`. The Base64 decoding of the request body is
the HTTP boundary; the model receives the decoded `pdf_bytes` directly. The
outcome is an `Except` mirroring `HTTPException(status_code, detail)`, and the
cache and knowledge base after the call are returned alongside (the cache is
updated by extraction even when the call then fails on error-marked text,
exactly as in the source; the knowledge base is written only on success). -/
def process (e : Engine) (fp : Bytes → String) (label : String) (schema : Schema)
    (pdf_bytes : Bytes) (cache : CacheT) (kb : KB) :
    Except (Nat × String) ProcResult × CacheT × KB :=
  if pdf_bytes = [] then
    (.error (400, "PDF inválido ou vazio"), cache, kb)
  else
    let tc := extract_text_from_pdf_bytes e fp cache pdf_bytes
    let text := tc.1
    if containsMarker text then
      (.error (400, "Erro na extração de texto: " ++ text), tc.2, kb)
    else
      let fields0 := extract_fields_from_text_generic text schema
      let fields := applyDefaults fields0 schema
      (.ok ⟨label, text, fields⟩, tc.2, kbAppend kb label fields)

/-! ## Concrete inputs used by witnesses -/

/-- Witness for C2 at a concrete input: an engine whose parser fails. -/
def demoEngineFailParse : Engine :=
  ⟨fun _ => .error "cannot open broken document",
   fun _ _ => .error "no raster", fun _ _ => .error "no ocr"⟩

/-- Witness engine for C9: a document with embedded text and no failure. -/
def demoEngineText : Engine :=
  ⟨fun _ => .ok ["PAGE ONE ", "PAGE TWO"],
   fun _ _ => .error "r", fun _ _ => .error "o"⟩

/-- The fields extracted in the C9 witness run. -/
def demoFieldsC9 : FieldMap :=
  [("nome", some "PAGE ONE PAGE TWO"), ("numero_oab", none)]

/-- Witness engine for C3: a scanned document — whitespace-only embedded text,
two page images recognized by OCR. -/
def demoEngineScan : Engine :=
  ⟨fun _ => .ok [" ", "\n"], fun _ _ => .ok [⟨0⟩, ⟨1⟩],
   fun i _ => .ok (if i.id = 0 then "OCR A " else "OCR B")⟩

/-- The identity-document schema used by concrete witnesses. -/
def demoSchemaOab : Schema := [("numero_oab", "Numero OAB")]

/-- The ledger schema used by concrete witnesses. -/
def demoSchemaLedger : Schema :=
  [("data_referencia", "Data de referencia"), ("saldo_vencido", "Valor vencido"),
   ("saldo_a_vencer", "Valor a vencer"), ("total", "Valor total")]

/-- A ledger schema with an extra key no rule ever populates. -/
def demoSchemaExtra : Schema :=
  [("data_referencia", "Data de referencia"), ("observacao", "Observacao")]

/-! ## Helper lemmas -/

theorem cacheStore_lookup (c : CacheT) (k : String) (v : String) :
    cacheLookup (cacheStore c k v) k = some v := by
  induction c with
  | nil => simp [cacheStore, cacheLookup]
  | cons hd tl ih =>
      obtain ⟨k', v'⟩ := hd
      by_cases h : k' = k
      · simp [cacheStore, cacheLookup, h]
      · simp [cacheStore, cacheLookup, h, ih]

theorem extract_text_miss (e : Engine) (fp : Bytes → String) (c : CacheT) (B : Bytes)
    (hmiss : cacheLookup c (fp B) = none) :
    extract_text_from_pdf_bytes e fp c B
      = (extract_text_core e B, cacheStore c (fp B) (extract_text_core e B)) := by
  simp [extract_text_from_pdf_bytes, hmiss]

theorem ocrPages_total (e : Engine) (g : PageImage → String → String)
    (hg : ∀ i lang, e.ocrImage i lang = Except.ok (g i lang)) (imgs : List PageImage) :
    ∀ acc, ocrPages e imgs acc
      = Except.ok (concatAll (imgs.map fun i => g i "por+eng") acc) := by
  induction imgs with
  | nil => intro acc; simp [ocrPages, concatAll]
  | cons img rest ih =>
      intro acc
      simp [ocrPages, hg img "por+eng", concatAll, ih]

theorem kbAppend_lookup_same (kb : KB) (l : String) (f : FieldMap) :
    kbLookup (kbAppend kb l f) l = some ((kbLookup kb l).getD [] ++ [f]) := by
  induction kb with
  | nil => simp [kbAppend, kbLookup]
  | cons hd tl ih =>
      obtain ⟨l', h⟩ := hd
      by_cases he : l' = l
      · simp [kbAppend, kbLookup, he]
      · simp [kbAppend, kbLookup, he, ih]

theorem kbAppend_lookup_other (kb : KB) (l : String) (f : FieldMap)
    (l2 : String) (hne : l2 ≠ l) :
    kbLookup (kbAppend kb l f) l2 = kbLookup kb l2 := by
  have hln : ¬(l = l2) := fun he => hne he.symm
  induction kb with
  | nil => simp [kbAppend, kbLookup, hln]
  | cons hd tl ih =>
      obtain ⟨lk, hist⟩ := hd
      by_cases he : lk = l
      · subst he
        simp [kbAppend, kbLookup, hln]
      · by_cases he2 : lk = l2
        · subst he2
          simp [kbAppend, kbLookup, he]
        · simp [kbAppend, kbLookup, he, he2, ih]

/-! ## Claim C6: content cache idempotence -/

/-- Claim C6: after a first call of `extract_text_from_pdf_bytes` on bytes `B`
stores its text under `B`'s fingerprint, every later call on byte-identical
input returns the same text and leaves the cache unchanged, whatever the
extraction engine does on that later call (so parsing and OCR are never
re-invoked, regardless of label or schema, and also when the stored text is
error-marked — the quantification over outcomes covers it); and storing then
looking up the same key is an identity round-trip. -/
theorem claim_C6_cache_idempotent (e : Engine) (fp : Bytes → String)
    (c : CacheT) (B : Bytes) :
    (∀ e2, extract_text_from_pdf_bytes e2 fp
        ((extract_text_from_pdf_bytes e fp c B).2) B
      = extract_text_from_pdf_bytes e fp c B)
  ∧ (∀ c2 k v, cacheLookup (cacheStore c2 k v) k = some v) := by
  refine ⟨fun e2 => ?_, fun c2 k v => cacheStore_lookup c2 k v⟩
  cases h : cacheLookup c (fp B) with
  | some t =>
      simp [extract_text_from_pdf_bytes, h]
  | none =>
      rw [extract_text_miss e fp c B h]
      simp [extract_text_from_pdf_bytes, cacheStore_lookup]

/-! ## Claim C2: extraction failures are returned as error-marked text -/

/-- Claim C2: `extract_text_from_pdf_bytes` is total (the model returns a
string on every input by construction — the `except` clause of the source
swallows every exception), and on a cache miss every failure of parsing,
rasterization, or OCR produces exactly the text `"__ERROR__ "` followed by the
failure message, with no partial per-page text included. -/
theorem claim_C2_errors_marked (e : Engine) (fp : Bytes → String)
    (c : CacheT) (B : Bytes) (hmiss : cacheLookup c (fp B) = none) :
    (∀ msg, e.parsePages B = .error msg →
        (extract_text_from_pdf_bytes e fp c B).1 = "__ERROR__ " ++ msg)
  ∧ (∀ pages msg, e.parsePages B = .ok pages →
        strippedEmpty (concatAll pages "") = true →
        e.rasterize B 200 = .error msg →
        (extract_text_from_pdf_bytes e fp c B).1 = "__ERROR__ " ++ msg)
  ∧ (∀ pages imgs msg, e.parsePages B = .ok pages →
        strippedEmpty (concatAll pages "") = true →
        e.rasterize B 200 = .ok imgs →
        ocrPages e imgs (concatAll pages "") = .error msg →
        (extract_text_from_pdf_bytes e fp c B).1 = "__ERROR__ " ++ msg) := by
  rw [extract_text_miss e fp c B hmiss]
  refine ⟨fun msg hp => ?_, fun pages msg hp hs hr => ?_,
    fun pages imgs msg hp hs hr ho => ?_⟩
  · simp [extract_text_core, hp]
  · simp [extract_text_core, hp, hs, hr]
  · simp [extract_text_core, hp, hs, hr, ho]


theorem claim_C2_errors_marked_witness :
    cacheLookup [] ((fun _ => "d41d8") [0]) = none
  ∧ (extract_text_from_pdf_bytes demoEngineFailParse (fun _ => "d41d8") [] [0]).1
      = "__ERROR__ cannot open broken document" :=
  ⟨rfl, (claim_C2_errors_marked demoEngineFailParse (fun _ => "d41d8") [] [0] rfl).1
    "cannot open broken document" rfl⟩

/-! ## Claim C3: OCR runs exactly when embedded text is whitespace-only -/

/-- Claim C3: when the concatenated embedded page text does not strip to
empty, the extraction returns exactly that embedded text and never invokes
rasterization or OCR (the result is the same for every rasterizer and every
OCR function); when it strips to empty, every page image produced by
rasterizing at 200 DPI is OCR'd with languages `"por+eng"` and the recognized
texts are appended in page order after the whitespace-only embedded text. -/
theorem claim_C3_ocr_fallback (e : Engine) (B : Bytes) (pages : List String)
    (hp : e.parsePages B = .ok pages) :
    (strippedEmpty (concatAll pages "") = false →
        ∀ rast ocr, extract_text_core ⟨e.parsePages, rast, ocr⟩ B
          = concatAll pages "")
  ∧ (strippedEmpty (concatAll pages "") = true →
        ∀ (imgs : List PageImage) (g : PageImage → String → String),
          e.rasterize B 200 = .ok imgs →
          (∀ i lang, e.ocrImage i lang = Except.ok (g i lang)) →
          extract_text_core e B
            = concatAll (imgs.map fun i => g i "por+eng") (concatAll pages "")) := by
  constructor
  · intro hs rast ocr
    simp [extract_text_core, hp, hs]
  · intro hs imgs g hr hg
    simp [extract_text_core, hp, hs, hr, ocrPages_total e g hg imgs]


theorem claim_C3_ocr_fallback_witness :
    demoEngineScan.parsePages [7] = .ok [" ", "\n"]
  ∧ strippedEmpty (concatAll [" ", "\n"] "") = true
  ∧ extract_text_core demoEngineScan [7] = " \nOCR A OCR B" :=
  ⟨rfl, rfl,
    (claim_C3_ocr_fallback demoEngineScan [7] [" ", "\n"] rfl).2 rfl
      [⟨0⟩, ⟨1⟩] (fun i _ => if i.id = 0 then "OCR A " else "OCR B")
      rfl (fun _ _ => rfl)⟩

/-! ## Claims C7 and C9: process error handling and knowledge store -/

theorem claim_C7_process_bad_input (e : Engine) (fp : Bytes → String)
    (label : String) (schema : Schema) (B : Bytes) (c : CacheT) (kb : KB) :
    (B = [] →
        process e fp label schema B c kb
          = (.error (400, "PDF inválido ou vazio"), c, kb))
  ∧ (∀ text c2, B ≠ [] →
        extract_text_from_pdf_bytes e fp c B = (text, c2) →
        containsMarker text = true →
        process e fp label schema B c kb
          = (.error (400, "Erro na extração de texto: " ++ text), c2, kb)) := by
  constructor
  · intro hB
    simp [process, hB]
  · intro text c2 hB hx hm
    simp [process, hB, hx, hm]

theorem claim_C7_process_bad_input_witness :
    ([0] : Bytes) ≠ []
  ∧ extract_text_from_pdf_bytes demoEngineFailParse (fun _ => "d41") [] [0]
      = ("__ERROR__ cannot open broken document",
         [("d41", "__ERROR__ cannot open broken document")])
  ∧ containsMarker "__ERROR__ cannot open broken document" = true
  ∧ process demoEngineFailParse (fun _ => "d41") "doc" [] [0] [] []
      = (.error (400,
          "Erro na extração de texto: __ERROR__ cannot open broken document"),
         [("d41", "__ERROR__ cannot open broken document")], []) :=
  ⟨by decide, by decide, by decide,
    (claim_C7_process_bad_input demoEngineFailParse (fun _ => "d41") "doc" [] [0] [] []).2
      "__ERROR__ cannot open broken document"
      [("d41", "__ERROR__ cannot open broken document")]
      (by decide) (by decide) (by decide)⟩

theorem claim_C9_knowledge_append_only :
    (∀ e fp label schema B c kb res c2 kb2,
        process e fp label schema B c kb = (.ok res, c2, kb2) →
        kb2 = kbAppend kb label res.extracted_fields)
  ∧ (∀ kb l f, kbLookup (kbAppend kb l f) l
        = some ((kbLookup kb l).getD [] ++ [f]))
  ∧ (∀ kb l f l2, l2 ≠ l → kbLookup (kbAppend kb l f) l2 = kbLookup kb l2)
  ∧ (∀ kb l f1 f2, kbLookup (kbAppend (kbAppend kb l f1) l f2) l
        = some ((kbLookup kb l).getD [] ++ [f1, f2])) := by
  refine ⟨?_, kbAppend_lookup_same, fun kb l f l2 h => kbAppend_lookup_other kb l f l2 h, ?_⟩
  · intro e fp label schema B c kb res c2 kb2 h
    by_cases hB : B = []
    · simp [process, hB] at h
    · simp only [process, hB, if_neg] at h
      cases hm : containsMarker (extract_text_from_pdf_bytes e fp c B).1 with
      | true => simp [hm] at h
      | false =>
          simp [hm] at h
          obtain ⟨hres, hc2, hkb⟩ := h
          subst hres
          exact hkb.symm
  · intro kb l f1 f2
    rw [kbAppend_lookup_same, kbAppend_lookup_same]
    simp


theorem claim_C9_knowledge_append_only_witness :
    process demoEngineText (fun _ => "3858f") "doc" [("numero_oab", "registro")]
        [0] [] []
      = (.ok ⟨"doc", "PAGE ONE PAGE TWO", demoFieldsC9⟩,
         [("3858f", "PAGE ONE PAGE TWO")], [("doc", [demoFieldsC9])])
  ∧ [("doc", [demoFieldsC9])] = kbAppend [] "doc" demoFieldsC9 :=
  ⟨rfl,
    claim_C9_knowledge_append_only.1 demoEngineText (fun _ => "3858f") "doc"
      [("numero_oab", "registro")] [0] [] []
      ⟨"doc", "PAGE ONE PAGE TWO", demoFieldsC9⟩
      [("3858f", "PAGE ONE PAGE TWO")] [("doc", [demoFieldsC9])] rfl⟩

/-! ## Claims C8, C4, C10: schema-driven field extraction -/


/-- Claim C8: in the identity-document rule set the name field is the first
match of the uppercase-token-run pattern on the normalized text (null when
there is none) and the registration-number field is the first standalone run
of 4 to 6 digits (null when there is none); on text containing
`"JOAO DA SILVA"` and a standalone `"123456"` they yield exactly those, and on
text with no such run and no such digits both are null. -/
theorem claim_C8_identity_document_rules (T : String) (S : Schema)
    (h : hasKey S "numero_oab" = true) :
    extract_fields_from_text_generic T S
      = [("nome", searchName (normalize_text T)),
         ("numero_oab", searchOab (normalize_text T))]
  ∧ extract_fields_from_text_generic "JOAO DA SILVA 123456" S
      = [("nome", some "JOAO DA SILVA"), ("numero_oab", some "123456")]
  ∧ extract_fields_from_text_generic "ab" S
      = [("nome", none), ("numero_oab", none)] := by
  refine ⟨?_, ?_, ?_⟩ <;> simp only [extract_fields_from_text_generic, h, if_true] <;> decide

theorem claim_C8_identity_document_rules_witness :
    hasKey demoSchemaOab "numero_oab" = true
  ∧ extract_fields_from_text_generic "JOAO DA SILVA 123456" demoSchemaOab
      = [("nome", some "JOAO DA SILVA"), ("numero_oab", some "123456")] :=
  ⟨rfl, (claim_C8_identity_document_rules "" demoSchemaOab rfl).2.1⟩

/-- Claim C4: in the ledger branch, with `V` the list of money-pattern matches
in order of occurrence, `"saldo_vencido"` is the converted first element of
`V`, `"saldo_a_vencer"` the converted second element when it exists and null
otherwise, `"total"` the converted last element; with one single value that
value fills both `"saldo_vencido"` and `"total"`, and with no value all three
are null. -/
theorem claim_C4_ledger_value_assignment (T : String) (S : Schema)
    (h1 : hasKey S "numero_oab" = false)
    (h2 : hasKey S "data_referencia" = true) :
    (extract_fields_from_text_generic T S
      = [("data_referencia", searchDate (normalize_text T)),
         ("saldo_vencido",
           ((findAllMoney (normalize_text T)).get? 0).bind normalize_money),
         ("saldo_a_vencer",
           ((findAllMoney (normalize_text T)).get? 1).bind normalize_money),
         ("total",
           (findAllMoney (normalize_text T)).getLast?.bind normalize_money)])
  ∧ (findAllMoney (normalize_text T) = [] →
      extract_fields_from_text_generic T S
        = [("data_referencia", searchDate (normalize_text T)),
           ("saldo_vencido", none), ("saldo_a_vencer", none), ("total", none)])
  ∧ (∀ v, findAllMoney (normalize_text T) = [v] →
      extract_fields_from_text_generic T S
        = [("data_referencia", searchDate (normalize_text T)),
           ("saldo_vencido", normalize_money v),
           ("saldo_a_vencer", none), ("total", normalize_money v)]) := by
  have base : extract_fields_from_text_generic T S
      = [("data_referencia", searchDate (normalize_text T)),
         ("saldo_vencido",
           ((findAllMoney (normalize_text T)).get? 0).bind normalize_money),
         ("saldo_a_vencer",
           ((findAllMoney (normalize_text T)).get? 1).bind normalize_money),
         ("total",
           (findAllMoney (normalize_text T)).getLast?.bind normalize_money)] := by
    simp only [extract_fields_from_text_generic, h1, h2, Bool.false_eq_true,
      if_false, if_true]
  refine ⟨base, fun hv => ?_, fun v hv => ?_⟩
  · rw [base, hv]; rfl
  · rw [base, hv]; rfl

theorem claim_C4_ledger_value_assignment_witness :
    hasKey demoSchemaLedger "numero_oab" = false
  ∧ hasKey demoSchemaLedger "data_referencia" = true
  ∧ extract_fields_from_text_generic "Saldo em 01/03/2024: 1.000,00 500,50"
        demoSchemaLedger
      = [("data_referencia", some "01/03/2024"),
         ("saldo_vencido", some "1000.00"),
         ("saldo_a_vencer", some "500.50"), ("total", some "500.50")] :=
  ⟨rfl, rfl,
    (claim_C4_ledger_value_assignment "Saldo em 01/03/2024: 1.000,00 500,50"
      demoSchemaLedger rfl rfl).1.trans (by decide)⟩

/-- Claim C10: the key set of the rule-set output is determined solely by
which dispatch keys the schema contains: exactly the two identity-document
keys when `"numero_oab"` is present, exactly the four ledger keys when only
`"data_referencia"` is present, and empty otherwise — in particular a schema
declaring only `"numero_oab"` still receives the key `"nome"`, a field name it
never declared. -/
theorem claim_C10_keys_determined_by_dispatch (T : String) (S : Schema) :
    (keysOf (extract_fields_from_text_generic T S)
      = if hasKey S "numero_oab" then ["nome", "numero_oab"]
        else if hasKey S "data_referencia" then
          ["data_referencia", "saldo_vencido", "saldo_a_vencer", "total"]
        else [])
  ∧ (keysOf (extract_fields_from_text_generic "" demoSchemaOab)
       = ["nome", "numero_oab"]
     ∧ hasKey demoSchemaOab "nome" = false) := by
  constructor
  · by_cases h1 : hasKey S "numero_oab" <;>
      by_cases h2 : hasKey S "data_referencia" <;>
        simp [extract_fields_from_text_generic, keysOf, h1, h2]
  · exact ⟨rfl, rfl⟩


/-! ## Claim C1: total coverage of schema keys by the final mapping -/

theorem hasKey_nil (k : String) : hasKey ([] : List (String × α)) k = false := rfl

theorem hasKey_cons (k2 : String) (v : α) (tl : List (String × α)) (k : String) :
    hasKey ((k2, v) :: tl) k = (decide (k2 = k) || hasKey tl k) := rfl

theorem hasKey_append (f g : FieldMap) (k : String) :
    hasKey (f ++ g) k = (hasKey f k || hasKey g k) := by
  simp [hasKey, List.any_append]

theorem getVal_append_left (f g : FieldMap) (k : String)
    (h : hasKey f k = true) : getVal (f ++ g) k = getVal f k := by
  induction f with
  | nil => simp [hasKey] at h
  | cons hd tl ih =>
      obtain ⟨k2, v⟩ := hd
      by_cases hk : k2 = k
      · simp [getVal, hk]
      · rw [hasKey_cons, Bool.or_eq_true] at h
        have h2 : hasKey tl k = true := by
          rcases h with h | h
          · exact absurd (of_decide_eq_true h) hk
          · exact h
        simp [getVal, hk, ih h2]

theorem getVal_append_right (f g : FieldMap) (k : String)
    (h : hasKey f k = false) : getVal (f ++ g) k = getVal g k := by
  induction f with
  | nil => simp [getVal]
  | cons hd tl ih =>
      obtain ⟨k2, v⟩ := hd
      rw [hasKey_cons, Bool.or_eq_false_iff] at h
      have hk : ¬(k2 = k) := of_decide_eq_false h.1
      simp [getVal, hk, ih h.2]

theorem applyDefaults_hasKey (s : Schema) : ∀ (f : FieldMap) (k : String),
    hasKey (applyDefaults f s) k = (hasKey f k || hasKey s k) := by
  induction s with
  | nil => intro f k; simp [applyDefaults, hasKey]
  | cons hd tl ih =>
      intro f k
      obtain ⟨k2, d⟩ := hd
      rw [hasKey_cons]
      by_cases h2 : hasKey f k2
      · rw [show applyDefaults f ((k2, d) :: tl) = applyDefaults f tl from by
          simp [applyDefaults, h2]]
        rw [ih f k]
        by_cases hk : k2 = k
        · subst hk
          simp [h2]
        · rw [decide_eq_false hk]
          simp
      · rw [show applyDefaults f ((k2, d) :: tl)
            = applyDefaults (f ++ [(k2, none)]) tl from by simp [applyDefaults, h2]]
        rw [ih, hasKey_append, hasKey_cons, hasKey_nil, Bool.or_false,
          Bool.or_assoc]

theorem applyDefaults_getVal_preserved (s : Schema) : ∀ (f : FieldMap) (k : String),
    hasKey f k = true → getVal (applyDefaults f s) k = getVal f k := by
  induction s with
  | nil => intro f k _; rfl
  | cons hd tl ih =>
      intro f k h
      obtain ⟨k2, d⟩ := hd
      by_cases h2 : hasKey f k2
      · rw [show applyDefaults f ((k2, d) :: tl) = applyDefaults f tl from by
          simp [applyDefaults, h2]]
        exact ih f k h
      · rw [show applyDefaults f ((k2, d) :: tl)
            = applyDefaults (f ++ [(k2, none)]) tl from by simp [applyDefaults, h2]]
        have hk : hasKey (f ++ [(k2, none)]) k = true := by
          rw [hasKey_append, h, Bool.true_or]
        rw [ih _ k hk, getVal_append_left f _ k h]

theorem applyDefaults_getVal_default (s : Schema) : ∀ (f : FieldMap) (k : String),
    hasKey f k = false → hasKey s k = true →
    getVal (applyDefaults f s) k = some none := by
  induction s with
  | nil =>
      intro f k _ hs
      rw [hasKey_nil] at hs
      exact absurd hs (by simp)
  | cons hd tl ih =>
      intro f k hf hs
      obtain ⟨k2, d⟩ := hd
      by_cases hk : k2 = k
      · subst hk
        rw [show applyDefaults f ((k2, d) :: tl)
            = applyDefaults (f ++ [(k2, none)]) tl from by simp [applyDefaults, hf]]
        have h1 : getVal (f ++ [(k2, none)]) k2 = some none := by
          rw [getVal_append_right f _ k2 hf]
          simp [getVal]
        have h2 : hasKey (f ++ [(k2, none)]) k2 = true := by
          rw [hasKey_append, hasKey_cons]
          simp
        rw [applyDefaults_getVal_preserved tl _ k2 h2, h1]
      · have hs2 : hasKey tl k = true := by
          rw [hasKey_cons, Bool.or_eq_true] at hs
          rcases hs with hs | hs
          · exact absurd (of_decide_eq_true hs) hk
          · exact hs
        by_cases h2 : hasKey f k2
        · rw [show applyDefaults f ((k2, d) :: tl) = applyDefaults f tl from by
            simp [applyDefaults, h2]]
          exact ih f k hf hs2
        · rw [show applyDefaults f ((k2, d) :: tl)
              = applyDefaults (f ++ [(k2, none)]) tl from by simp [applyDefaults, h2]]
          have hf2 : hasKey (f ++ [(k2, none)]) k = false := by
            rw [hasKey_append, hasKey_cons, hasKey_nil, hf, decide_eq_false hk]
            rfl
          exact ih _ k hf2 hs2

/-- Claim C1 counterexample: with the schema declaring only `"numero_oab"`,
the final mapping (rule output plus defaults) carries the key `"nome"`, which
the schema never declared — the key set is not exactly the schema's key set. -/
theorem claim_C1_counterexample :
    "nome" ∈ keysOf (applyDefaults
        (extract_fields_from_text_generic "" demoSchemaOab) demoSchemaOab)
  ∧ "nome" ∉ keysOf demoSchemaOab := by
  exact ⟨by decide, by decide⟩

/-- Claim C1 (amended): the key set of the final mapping is the union of the
dispatched rule set's fixed keys and the schema's keys — every schema key
appears, with an explicit null when no rule populated it, but rule keys
outside the schema also appear, so the key set may strictly contain the
schema's. -/
theorem claim_C1_total_coverage_amended (T : String) (S : Schema) (k : String) :
    (hasKey (applyDefaults (extract_fields_from_text_generic T S) S) k
      = (hasKey (extract_fields_from_text_generic T S) k || hasKey S k))
  ∧ (hasKey (extract_fields_from_text_generic T S) k = false →
      hasKey S k = true →
      getVal (applyDefaults (extract_fields_from_text_generic T S) S) k
        = some none) :=
  ⟨applyDefaults_hasKey S _ k,
   fun h1 h2 => applyDefaults_getVal_default S _ k h1 h2⟩


theorem claim_C1_total_coverage_amended_witness :
    hasKey (extract_fields_from_text_generic "" demoSchemaExtra) "observacao"
      = false
  ∧ hasKey demoSchemaExtra "observacao" = true
  ∧ getVal (applyDefaults (extract_fields_from_text_generic "" demoSchemaExtra)
        demoSchemaExtra) "observacao" = some none :=
  ⟨by decide, by decide,
    (claim_C1_total_coverage_amended "" demoSchemaExtra "observacao").2
      (by decide) (by decide)⟩

/-! ## Claim C5: monetary normalization -/

/-- Claim C5 counterexample: on `"1,2,3"` the `float` conversion fails and
`normalize_money` returns the transformed string `"1.2.3"` (dots dropped,
comma turned into a dot), not the original input unchanged. -/
theorem claim_C5_counterexample :
    normalize_money "1,2,3" = some "1.2.3" ∧ ("1.2.3" : String) ≠ "1,2,3" := by
  exact ⟨by decide, by decide⟩

/-- Claim C5 (amended): `normalize_money` maps the empty string to null; a
well-formed Brazilian-locale value loses its grouping dots, has its comma
replaced by a decimal point, and is reformatted to exactly two decimal places;
and whenever the numeric conversion fails, the function returns the
transformed string (grouping dots removed, comma replaced by a point), which
differs from the original whenever the input contained a dot or a comma. -/
theorem claim_C5_money_normalization_amended (v : String) :
    normalize_money "" = none
  ∧ normalize_money "76.871,20" = some "76871.20"
  ∧ normalize_money "1.234.567,89" = some "1234567.89"
  ∧ (v ≠ "" → pyFloat (commaToDot (dropDots v)) = none →
      normalize_money v = some (commaToDot (dropDots v))) := by
  refine ⟨by decide, by decide, by decide, fun hv hp => ?_⟩
  simp [normalize_money, hv, hp]

theorem claim_C5_money_normalization_amended_witness :
    ("A,B" : String) ≠ ""
  ∧ pyFloat (commaToDot (dropDots "A,B")) = none
  ∧ normalize_money "A,B" = some "A.B" :=
  ⟨by decide, by decide,
    (claim_C5_money_normalization_amended "A,B").2.2.2 (by decide) (by decide)⟩
